import Mathlib

/-!
Verification development for the synchronization orchestration layer of the
CR-SQLite JS sync package.  The authoritative source is the TypeScript module
`src/unnamed/part_001`, which defines the `SyncedDB` session orchestrator,
`createSyncedDB` / `createSyncedDB_Exclusive`, the module-level `locks` map
and the `startSync` helper.  The inbound change-stream (`InboundStream`) is
imported by that module but its implementation is not part of the provided
sources; it is modelled from the specification where needed and marked as
such.
-/

namespace CRSqlite

/-! ## Session orchestrator model (from `SyncedDB` in src/unnamed/part_001) -/

/-- Site identifiers; the database handle's `siteid`. -/
abbrev SiteId := Nat

/-- A version frontier (the database handle's `getLastSeens()` result): an
association of peer site ids to version numbers.  The orchestrator passes it
through opaquely, so a list of pairs suffices. -/
abbrev Frontier := List (Nat × Nat)

/-- Wire-message tags from the `@vlcn.io/ws-common` collaborator; the
orchestrator only uses `tags.AnnouncePresence`. -/
inductive Tag
  | AnnouncePresence

/-- The presence-announcement message built by `SyncedDB.start` (the object
literal passed to `transport.announcePresence`). -/
structure Msg where
  tag : Tag
  lastSeens : Frontier
  schemaName : String
  schemaVersion : Nat
  sender : SiteId

/-- The database-handle collaborator (`DB`): `siteid`, `getLastSeens()` and
`getSchemaNameAndVersion()` as read-only data. -/
structure DBHandle where
  siteid : SiteId
  lastSeens : Frontier
  schemaName : String
  schemaVersion : Nat

/-- Observable state of one session's transport and streams:
whether each of the transport's three callback slots has been assigned
(`onChangesReceived`, `onStartStreaming`, `onResetStream`), which frontier the
inbound stream was primed with (`prepare`), the announcements sent so far,
and whether the outbound stream was halted / the transport closed. -/
structure SessionState where
  onChangesReceivedSet : Bool
  onStartStreamingSet : Bool
  onResetStreamSet : Bool
  preparedWith : Option Frontier
  announced : List Msg
  outboundStopped : Bool
  transportClosed : Bool

/-- A freshly constructed transport, before any `SyncedDB` exists: no callback
slot assigned, nothing announced, transport open. -/
def Transport.initial : SessionState :=
  { onChangesReceivedSet := false
    onStartStreamingSet := false
    onResetStreamSet := false
    preparedWith := none
    announced := []
    outboundStopped := false
    transportClosed := false }

/-- The `SyncedDB` constructor: it assigns
`transport.onChangesReceived = inboundStream.receiveChanges`,
`transport.onStartStreaming = outboundStream.startStreaming` and
`transport.onResetStream = outboundStream.resetStream`.  It does not call
`prepare` and sends nothing. -/
def SyncedDB.construct (s : SessionState) : SessionState :=
  { s with
    onChangesReceivedSet := true
    onStartStreamingSet := true
    onResetStreamSet := true }

/-- Operations performed by `SyncedDB.start`, in source order, used to state
ordering facts (prepare before announce). -/
inductive SOp
  | getLastSeens
  | getSchemaNameAndVersion
  | prepare (f : Frontier)
  | announcePresence (m : Msg)

/-- Whether an operation is an `announcePresence` call. -/
def SOp.isAnnounce : SOp → Bool
  | SOp.announcePresence _ => true
  | _ => false

/-- Whether an operation is a `prepare` call. -/
def SOp.isPrepare : SOp → Bool
  | SOp.prepare _ => true
  | _ => false

/-- `SyncedDB.start`: awaits `db.getLastSeens()` and
`db.getSchemaNameAndVersion()`, calls `inboundStream.prepare(lastSeens)`,
then calls `transport.announcePresence` with the object literal
`{_tag: AnnouncePresence, lastSeens, schemaName, schemaVersion, sender: db.siteid}`.
Returns the updated state together with the list of operations performed in
source order. -/
def SyncedDB.start (db : DBHandle) (s : SessionState) : SessionState × List SOp :=
  let msg : Msg :=
    { tag := Tag.AnnouncePresence
      lastSeens := db.lastSeens
      schemaName := db.schemaName
      schemaVersion := db.schemaVersion
      sender := db.siteid }
  ({ s with
      preparedWith := some db.lastSeens
      announced := s.announced ++ [msg] },
   [SOp.getLastSeens, SOp.getSchemaNameAndVersion,
    SOp.prepare db.lastSeens, SOp.announcePresence msg])

/-- `SyncedDB.stop`: calls `outboundStream.stop()` and `transport.close()` and
returns `true`.  The collaborator effects are recorded as the flags
`outboundStopped` / `transportClosed`; re-stopping a stopped stream and
re-closing a closed transport are no-ops per the interface contract
(§4.3 and the `TransportClosed` taxonomy entry), hence boolean flags. -/
def SyncedDB.stop (s : SessionState) : SessionState × Bool :=
  ({ s with outboundStopped := true, transportClosed := true }, true)

/-! ## Inbound stream model

Modelled from the spec: the `InboundStream` implementation
(`streams/InboundStream.js`, imported by src/unnamed/part_001) is repository
code that is not under the provided sources.  Its contract is §4.2 of the
spec: `prepare(frontier)` seeds the per-peer expectation state;
`receiveChanges(batch)` (a) discards the already-seen prefix of a batch whose
start is at or below the recorded frontier and applies only the causally-new
suffix, (b) on a batch starting strictly beyond frontier+1 applies nothing and
requests a resend from the recorded frontier, (c) otherwise applies the batch
and advances the peer's frontier to the batch's final version. -/

/-- Modelled from the spec: a change batch from one peer.  The `k`-th change
in the batch has version `firstVersion + k`; the batch carries `nChanges`
changes, so its final version is `firstVersion + nChanges - 1`. -/
structure Batch where
  peer : Nat
  firstVersion : Nat
  nChanges : Nat

/-- Versions carried by a batch, in order. -/
def Batch.versions (b : Batch) : List Nat :=
  (List.range b.nChanges).map (fun k => b.firstVersion + k)

/-- Final version of a batch. -/
def Batch.lastVersion (b : Batch) : Nat :=
  b.firstVersion + b.nChanges - 1

/-- Modelled from the spec: inbound-stream state.  `frontier` is the recorded
per-peer last-seen version; `applied` records every change handed to the
database handle, as (peer, version) pairs in application order; `lastApplied`
records, per peer, the final version of the last batch whose (suffix of)
changes were applied. -/
structure IState where
  frontier : Nat → Nat
  applied : List (Nat × Nat)
  lastApplied : Nat → Option Nat

/-- Modelled from the spec: outbound control signals the inbound stream can
emit; `resendFrom peer v` asks `peer` to resend changes after version `v`. -/
inductive Req
  | resendFrom (peer : Nat) (v : Nat)

/-- Modelled from the spec: `prepare(lastSeens)` seeds the per-peer
expectation state from the frontier retrieved by the session. -/
def InboundStream.prepare (lastSeens : Nat → Nat) : IState :=
  { frontier := lastSeens
    applied := []
    lastApplied := fun _ => none }

/-- Modelled from the spec: `receiveChanges(batch)`.  With `f` the recorded
frontier for the batch's peer: if the batch starts strictly beyond `f + 1`,
nothing is applied, the frontier is unchanged and a resend request from `f` is
emitted; otherwise the changes with versions `> f` (the causally-new suffix)
are applied in order and, when that suffix is nonempty, the peer's frontier
advances to the batch's final version. -/
def receiveChanges (s : IState) (b : Batch) : IState × List Req :=
  let f := s.frontier b.peer
  if f + 1 < b.firstVersion then
    (s, [Req.resendFrom b.peer f])
  else
    let fresh := b.versions.filter (fun v => f < v)
    if fresh.isEmpty then (s, [])
    else
      ({ frontier := Function.update s.frontier b.peer b.lastVersion
         applied := s.applied ++ fresh.map (fun v => (b.peer, v))
         lastApplied := Function.update s.lastApplied b.peer (some b.lastVersion) },
       [])

/-- Fold `receiveChanges` over a sequence of batches, keeping the state. -/
def runIn (s : IState) (bs : List Batch) : IState :=
  bs.foldl (fun st b => (receiveChanges st b).1) s

/-! ## Exclusivity model (from `createSyncedDB_Exclusive` in src/unnamed/part_001)

Two invocations of `createSyncedDB_Exclusive` on the same database name are
modelled, indexed by `Bool`.  Each invocation runs in an execution context
given by `ctxOf`: distinct contexts (two tabs, each with its own module-level
`locks` map) are `ctxOf = fun c => c`; two calls in one context share a map
via `ctxOf = fun _ => false`.  The cross-context `navigator.locks` mutex is a
single `holder` slot: a callback that returns its `hold` promise keeps the
lock until that promise is resolved; a callback that returns immediately
releases it at once. -/

/-- Local state of one `createSyncedDB_Exclusive` invocation, plus the state
of the session it may create.  `dbVar` is the invocation's outer `db`
variable (`let db: ISyncedDB | null = null`); the inner callback's `db = db`
statement assigns the callback parameter to itself and therefore never writes
this variable.  `started` records that `SyncedDB.start()` ran for this
invocation's session, `sessionStopped` that `SyncedDB.stop()` ran on it. -/
structure Inv where
  invoked : Bool
  stopRequested : Bool
  dbVar : Option Bool
  granted : Bool
  aborted : Bool
  delivered : Bool
  started : Bool
  sessionStopped : Bool

/-- An invocation that has not happened yet. -/
def Inv.initial : Inv :=
  { invoked := false
    stopRequested := false
    dbVar := none
    granted := false
    aborted := false
    delivered := false
    started := false
    sessionStopped := false }

/-- Global state: the two invocations, the per-context module-level `locks`
map entry for the database name (holding which invocation's releaser is
stored), the `navigator.locks` holder, and which invocations' `hold` promises
have been resolved. -/
structure LState where
  invs : Bool → Inv
  locks : Bool → Option Bool
  holder : Option Bool
  holdRes : Bool → Bool

/-- The initial global state: nothing invoked, empty maps, lock free. -/
def LState.initial : LState :=
  { invs := fun _ => Inv.initial
    locks := fun _ => none
    holder := none
    holdRes := fun _ => false }

/-- Events of the interleaving semantics.  `invoke i` is the synchronous body
of `createSyncedDB_Exclusive` (sets up `hold`, stores the releaser in the
context's `locks` map, calls `navigator.locks.request`); `grant i` runs the
lock callback for `i`; `deliver i` resolves `createSyncedDB` and runs the
callback passed to `startSync`; `stop i` runs the returned controller's
`stop()`; `release` frees the mutex once the holder's `hold` is resolved. -/
inductive LEv
  | invoke (i : Bool)
  | grant (i : Bool)
  | deliver (i : Bool)
  | stop (i : Bool)
  | release

/-- The controller body `const releaser = locks.get(dbname); if (releaser) {
releaser(); }`: resolve the hold promise of whichever invocation's releaser
the context's map stores (if any). -/
def resolveReleaser (s : LState) (o : Option Bool) : LState :=
  match o with
  | some k => { s with holdRes := Function.update s.holdRes k true }
  | none => s

/-- The controller body `if (db) { db.stop(); }`: stop the session held in
the outer `db` variable (if any). -/
def stopHeldSession (s : LState) (o : Option Bool) : LState :=
  match o with
  | some k =>
      { s with
        invs := Function.update s.invs k { s.invs k with sessionStopped := true } }
  | none => s

/-- One step of the model.  An event whose trigger is not enabled leaves the
state unchanged.
  * `invoke i`: marks `i` invoked and overwrites the context's `locks` entry
    with `i`'s releaser (`locks.set(dbname, releaser)`).
  * `grant i`: if `i` requested, was not yet granted and the mutex is free:
    when `stopRequested` the callback returns immediately (request withdrawn,
    mutex not retained), otherwise `startSync` is initiated and the callback
    returns `hold`, so `i` becomes the holder.
  * `deliver i`: the `createSyncedDB` promise resolved; the callback checks
    `stopRequested` and, when clear, executes `db = db` (which leaves the
    outer variable untouched) and returns true, upon which `db.start()` runs.
  * `stop i`: sets `stopRequested`, resolves the hold promise of whichever
    invocation's releaser the context's `locks` map currently stores, and
    calls `db.stop()` only if the outer `db` variable is non-null.
  * `release`: the mutex holder's `hold` promise was resolved, so the lock is
    released. -/
def step (ctxOf : Bool → Bool) (s : LState) : LEv → LState
  | LEv.invoke i =>
      if (s.invs i).invoked then s
      else
        { s with
          invs := Function.update s.invs i { s.invs i with invoked := true }
          locks := Function.update s.locks (ctxOf i) (some i) }
  | LEv.grant i =>
      if (s.invs i).invoked && !(s.invs i).granted && s.holder.isNone then
        if (s.invs i).stopRequested then
          { s with
            invs := Function.update s.invs i
              { s.invs i with granted := true, aborted := true } }
        else
          { s with
            invs := Function.update s.invs i { s.invs i with granted := true }
            holder := some i }
      else s
  | LEv.deliver i =>
      if (s.invs i).granted && !(s.invs i).aborted && !(s.invs i).delivered then
        if (s.invs i).stopRequested then
          { s with
            invs := Function.update s.invs i { s.invs i with delivered := true } }
        else
          { s with
            invs := Function.update s.invs i
              { s.invs i with delivered := true, started := true } }
      else s
  | LEv.stop i =>
      let s1 : LState :=
        { s with
          invs := Function.update s.invs i { s.invs i with stopRequested := true } }
      let s2 : LState := resolveReleaser s1 (s1.locks (ctxOf i))
      stopHeldSession s2 ((s2.invs i).dbVar)
  | LEv.release =>
      match s.holder with
      | some i => if s.holdRes i then { s with holder := none } else s
      | none => s

/-- Run a trace of events from a state. -/
def runEx (ctxOf : Bool → Bool) (s : LState) (t : List LEv) : LState :=
  t.foldl (step ctxOf) s

/-- Two distinct execution contexts (two tabs): each invocation has its own
module-level `locks` map. -/
def twoCtx : Bool → Bool := fun c => c

/-- One shared execution context: both invocations share one `locks` map. -/
def oneCtx : Bool → Bool := fun _ => false

/-- The cross-context scenario of §8: tab `false` and tab `true` both call
`createSyncedDB_Exclusive` for the same name; `false` is granted the lock and
its session starts; `false`'s controller `stop()` runs; the lock is released;
`true` is granted and its session starts. -/
def traceC1 : List LEv :=
  [LEv.invoke false, LEv.invoke true, LEv.grant false, LEv.deliver false,
   LEv.stop false, LEv.release, LEv.grant true, LEv.deliver true]

/-- A single invocation that acquires the lock, starts, stops and releases,
leaving no holder and no waiters. -/
def traceC9 : List LEv :=
  [LEv.invoke false, LEv.grant false, LEv.deliver false, LEv.stop false,
   LEv.release]

/-- An invocation is waiting when it has requested the lock and was not yet
granted it. -/
def waiting (v : Inv) : Bool :=
  v.invoked && !v.granted

/-! ## Theorems -/

/-- The releaser call changes no invocation state. -/
theorem resolveReleaser_invs (s : LState) (o : Option Bool) :
    (resolveReleaser s o).invs = s.invs := by
  cases o <;> rfl

/-- The releaser call changes no `locks` map. -/
theorem resolveReleaser_locks (s : LState) (o : Option Bool) :
    (resolveReleaser s o).locks = s.locks := by
  cases o <;> rfl

/-- Resolving the releaser stored for `k` marks `k`'s hold resolved. -/
theorem resolveReleaser_holdRes_self (s : LState) (k : Bool) :
    (resolveReleaser s (some k)).holdRes k = true := by
  simp [resolveReleaser]

/-- Resolving a releaser other than `j`'s leaves `j`'s hold untouched. -/
theorem resolveReleaser_holdRes_other (s : LState) (k j : Bool) (h : j ≠ k) :
    (resolveReleaser s (some k)).holdRes j = s.holdRes j := by
  simp [resolveReleaser, Function.update_apply, h]

/-- Stopping the held session leaves every `locks` entry unchanged. -/
theorem stopHeldSession_locks (s : LState) (o : Option Bool) :
    (stopHeldSession s o).locks = s.locks := by
  cases o <;> rfl

/-- Stopping the held session leaves every hold promise unchanged. -/
theorem stopHeldSession_holdRes (s : LState) (o : Option Bool) :
    (stopHeldSession s o).holdRes = s.holdRes := by
  cases o <;> rfl

/-- Stopping the held session changes no `dbVar`. -/
theorem stopHeldSession_dbVar (s : LState) (o : Option Bool) (i : Bool) :
    ((stopHeldSession s o).invs i).dbVar = (s.invs i).dbVar := by
  cases o with
  | none => rfl
  | some k =>
      by_cases h : i = k
      · subst h; simp [stopHeldSession]
      · simp [stopHeldSession, Function.update_apply, h]

/-- Stopping the held session changes no `invoked` flag. -/
theorem stopHeldSession_invoked (s : LState) (o : Option Bool) (i : Bool) :
    ((stopHeldSession s o).invs i).invoked = (s.invs i).invoked := by
  cases o with
  | none => rfl
  | some k =>
      by_cases h : i = k
      · subst h; simp [stopHeldSession]
      · simp [stopHeldSession, Function.update_apply, h]

/-- Stopping the held session changes no `started` flag. -/
theorem stopHeldSession_started (s : LState) (o : Option Bool) (i : Bool) :
    ((stopHeldSession s o).invs i).started = (s.invs i).started := by
  cases o with
  | none => rfl
  | some k =>
      by_cases h : i = k
      · subst h; simp [stopHeldSession]
      · simp [stopHeldSession, Function.update_apply, h]

/-- Stopping the held session changes no `stopRequested` flag. -/
theorem stopHeldSession_stopRequested (s : LState) (o : Option Bool) (i : Bool) :
    ((stopHeldSession s o).invs i).stopRequested = (s.invs i).stopRequested := by
  cases o with
  | none => rfl
  | some k =>
      by_cases h : i = k
      · subst h; simp [stopHeldSession]
      · simp [stopHeldSession, Function.update_apply, h]

/-- No event ever writes an invocation's outer `db` variable: the inner
callback's `db = db` self-assignment leaves it untouched, and every other
record update copies it. -/
theorem dbVar_step (cf : Bool → Bool) (s : LState) (e : LEv) (i : Bool) :
    ((step cf s e).invs i).dbVar = (s.invs i).dbVar := by
  cases e with
  | invoke j =>
      by_cases h : (s.invs j).invoked
      · simp [step, h]
      · by_cases hij : i = j
        · subst hij; simp [step, h]
        · simp [step, h, Function.update_apply, hij]
  | grant j =>
      by_cases hij : i = j
      · subst hij
        simp only [step]
        split_ifs <;> simp
      · simp only [step]
        split_ifs <;> simp [Function.update_apply, hij]
  | deliver j =>
      by_cases hij : i = j
      · subst hij
        simp only [step]
        split_ifs <;> simp
      · simp only [step]
        split_ifs <;> simp [Function.update_apply, hij]
  | stop j =>
      show ((stopHeldSession _ _).invs i).dbVar = _
      rw [stopHeldSession_dbVar, resolveReleaser_invs]
      by_cases hij : i = j
      · subst hij; simp
      · simp [Function.update_apply, hij]
  | release =>
      simp only [step]
      cases h : s.holder with
      | none => rfl
      | some k => by_cases hr : s.holdRes k = true <;> simp [hr]

/-- Any version of a batch that is strictly above `f` forces the batch's
final version strictly above `f` as well. -/
theorem fresh_bound (f : Nat) (b : Batch)
    (h : (b.versions.filter (fun v => f < v)).isEmpty = false) :
    f < b.lastVersion := by
  obtain ⟨v, hv⟩ := List.exists_mem_of_ne_nil
    (b.versions.filter (fun v => f < v)) (by
      intro hnil
      rw [hnil] at h
      simp at h)
  obtain ⟨hmem, hlt⟩ := List.mem_filter.mp hv
  obtain ⟨k, hk, rfl⟩ := List.mem_map.mp hmem
  have hk2 : k < b.nChanges := List.mem_range.mp hk
  have hfv : f < b.firstVersion + k := by simpa using hlt
  unfold Batch.lastVersion
  omega

/-- One `receiveChanges` call never decreases any peer's frontier. -/
theorem frontier_mono_step (s : IState) (b : Batch) (p : Nat) :
    s.frontier p ≤ ((receiveChanges s b).1).frontier p := by
  unfold receiveChanges
  by_cases hgap : s.frontier b.peer + 1 < b.firstVersion
  · simp [hgap]
  · by_cases hdup : (b.versions.filter (fun v => s.frontier b.peer < v)).isEmpty
    · simp [hgap, hdup]
    · have hlast := fresh_bound (s.frontier b.peer) b (by simpa using hdup)
      by_cases hp : p = b.peer
      · subst hp
        simp [hgap, hdup, Function.update_apply]
        omega
      · simp [hgap, hdup, Function.update_apply, hp]

/-- A sequence of `receiveChanges` calls never decreases any peer's
frontier. -/
theorem frontier_mono_run (bs : List Batch) (s : IState) (p : Nat) :
    s.frontier p ≤ (runIn s bs).frontier p := by
  induction bs generalizing s with
  | nil => exact le_refl _
  | cons b bs ih =>
      have heq : runIn s (b :: bs) = runIn ((receiveChanges s b).1) bs := rfl
      rw [heq]
      exact le_trans (frontier_mono_step s b p) (ih _)

/-- One `receiveChanges` call preserves the tracking invariant: each peer's
frontier equals the final version of the last batch applied from that peer,
defaulting to `d` when nothing has been applied. -/
theorem track_step (d : Nat → Nat) (s : IState) (b : Batch)
    (h : ∀ p, s.frontier p = (s.lastApplied p).getD (d p)) (p : Nat) :
    ((receiveChanges s b).1).frontier p
      = (((receiveChanges s b).1).lastApplied p).getD (d p) := by
  unfold receiveChanges
  by_cases hgap : s.frontier b.peer + 1 < b.firstVersion
  · simp [hgap, h p]
  · by_cases hdup : (b.versions.filter (fun v => s.frontier b.peer < v)).isEmpty
    · simp [hgap, hdup, h p]
    · by_cases hp : p = b.peer
      · subst hp
        simp [hgap, hdup, Function.update_apply]
      · simp [hgap, hdup, Function.update_apply, hp, h p]

/-- Trace-level version of the tracking invariant. -/
theorem track_run (d : Nat → Nat) (bs : List Batch) (s : IState)
    (h : ∀ p, s.frontier p = (s.lastApplied p).getD (d p)) (p : Nat) :
    (runIn s bs).frontier p = ((runIn s bs).lastApplied p).getD (d p) := by
  induction bs generalizing s with
  | nil => exact h p
  | cons b bs ih =>
      have heq : runIn s (b :: bs) = runIn ((receiveChanges s b).1) bs := rfl
      rw [heq]
      exact ih _ (track_step d s b h)

/-- Granting never changes the `locks` maps. -/
theorem locks_grant (cf : Bool → Bool) (s : LState) (j : Bool) :
    (step cf s (LEv.grant j)).locks = s.locks := by
  simp only [step]
  split_ifs <;> rfl

/-- Delivery never changes the `locks` maps. -/
theorem locks_deliver (cf : Bool → Bool) (s : LState) (j : Bool) :
    (step cf s (LEv.deliver j)).locks = s.locks := by
  simp only [step]
  split_ifs <;> rfl

/-- The controller's `stop()` never changes the `locks` maps (in particular it
never deletes the entry for the database name). -/
theorem locks_stop (cf : Bool → Bool) (s : LState) (j : Bool) :
    (step cf s (LEv.stop j)).locks = s.locks := by
  show (stopHeldSession _ _).locks = _
  rw [stopHeldSession_locks, resolveReleaser_locks]

/-- Releasing the mutex never changes the `locks` maps. -/
theorem locks_release (cf : Bool → Bool) (s : LState) :
    (step cf s LEv.release).locks = s.locks := by
  simp only [step]
  cases hh : s.holder with
  | none => rfl
  | some k => by_cases hr : s.holdRes k = true <;> simp [hr]

/-- Granting never changes an `invoked` flag. -/
theorem invoked_grant (cf : Bool → Bool) (s : LState) (j i : Bool) :
    ((step cf s (LEv.grant j)).invs i).invoked = (s.invs i).invoked := by
  simp only [step]
  split_ifs
  all_goals
    by_cases hij : i = j
    · subst hij; simp
    · simp [Function.update_apply, hij]

/-- Delivery never changes an `invoked` flag. -/
theorem invoked_deliver (cf : Bool → Bool) (s : LState) (j i : Bool) :
    ((step cf s (LEv.deliver j)).invs i).invoked = (s.invs i).invoked := by
  simp only [step]
  split_ifs
  all_goals
    by_cases hij : i = j
    · subst hij; simp
    · simp [Function.update_apply, hij]

/-- The controller's `stop()` never changes an `invoked` flag. -/
theorem invoked_stop (cf : Bool → Bool) (s : LState) (j i : Bool) :
    ((step cf s (LEv.stop j)).invs i).invoked = (s.invs i).invoked := by
  show ((stopHeldSession _ _).invs i).invoked = _
  rw [stopHeldSession_invoked, resolveReleaser_invs]
  by_cases hij : i = j
  · subst hij; simp
  · simp [Function.update_apply, hij]

/-- Releasing the mutex never changes an `invoked` flag. -/
theorem invoked_release (cf : Bool → Bool) (s : LState) (i : Bool) :
    ((step cf s LEv.release).invs i).invoked = (s.invs i).invoked := by
  simp only [step]
  cases hh : s.holder with
  | none => rfl
  | some k => by_cases hr : s.holdRes k = true <;> simp [hr]

/-- The `invoked` flag is monotone under every event. -/
theorem invoked_mono_step (cf : Bool → Bool) (s : LState) (e : LEv) (i : Bool)
    (h : (s.invs i).invoked = true) :
    ((step cf s e).invs i).invoked = true := by
  cases e with
  | invoke j =>
      by_cases hj : (s.invs j).invoked
      · simpa [step, hj] using h
      · by_cases hij : i = j
        · subst hij; exact absurd h hj
        · simpa [step, hj, Function.update_apply, hij] using h
  | grant j => rw [invoked_grant]; exact h
  | deliver j => rw [invoked_deliver]; exact h
  | stop j => rw [invoked_stop]; exact h
  | release => rw [invoked_release]; exact h

/-- The `invoke` event always leaves its invocation marked invoked. -/
theorem invoke_sets_invoked (cf : Bool → Bool) (s : LState) (i : Bool) :
    ((step cf s (LEv.invoke i)).invs i).invoked = true := by
  by_cases hj : (s.invs i).invoked
  · simp [step, hj]
  · simp [step, hj]

/-- Once a `locks` entry is present it is present after every event. -/
theorem locks_isSome_step (cf : Bool → Bool) (s : LState) (e : LEv) (c : Bool)
    (h : (s.locks c).isSome = true) :
    ((step cf s e).locks c).isSome = true := by
  cases e with
  | invoke j =>
      by_cases hj : (s.invs j).invoked
      · simpa [step, hj] using h
      · by_cases hc : c = cf j
        · subst hc; simp [step, hj]
        · simpa [step, hj, Function.update_apply, hc] using h
  | grant j => rw [locks_grant]; exact h
  | deliver j => rw [locks_deliver]; exact h
  | stop j => rw [locks_stop]; exact h
  | release => rw [locks_release]; exact h

/-- Once a `locks` entry is present it is present after every trace. -/
theorem locks_isSome_run (cf : Bool → Bool) (t : List LEv) (s : LState) (c : Bool)
    (h : (s.locks c).isSome = true) :
    ((runEx cf s t).locks c).isSome = true := by
  induction t generalizing s with
  | nil => exact h
  | cons e t ih =>
      have heq : runEx cf s (e :: t) = runEx cf (step cf s e) t := rfl
      rw [heq]
      exact ih (step cf s e) (locks_isSome_step cf s e c h)

/-- An invoked invocation always has a `locks` entry in its context
(preservation under one event). -/
theorem K_step (cf : Bool → Bool) (s : LState) (e : LEv) (i : Bool)
    (hK : (s.invs i).invoked = true → (s.locks (cf i)).isSome = true) :
    ((step cf s e).invs i).invoked = true →
      ((step cf s e).locks (cf i)).isSome = true := by
  cases e with
  | invoke j =>
      by_cases hj : (s.invs j).invoked
      · simpa [step, hj] using hK
      · by_cases hc : cf i = cf j
        · intro _h
          simp [step, hj, Function.update_apply, hc]
        · intro hin
          have hij : i ≠ j := fun hh => hc (congrArg cf hh)
          have h1 : (s.invs i).invoked = true := by
            simpa [step, hj, Function.update_apply, hij] using hin
          simpa [step, hj, Function.update_apply, hc] using hK h1
  | grant j => rw [locks_grant, invoked_grant]; exact hK
  | deliver j => rw [locks_deliver, invoked_deliver]; exact hK
  | stop j => rw [locks_stop, invoked_stop]; exact hK
  | release => rw [locks_release, invoked_release]; exact hK

/-- An invoked invocation always has a `locks` entry in its context
(preservation along a trace). -/
theorem K_run (cf : Bool → Bool) (t : List LEv) (s : LState) (i : Bool)
    (hK : (s.invs i).invoked = true → (s.locks (cf i)).isSome = true) :
    ((runEx cf s t).invs i).invoked = true →
      ((runEx cf s t).locks (cf i)).isSome = true := by
  induction t generalizing s with
  | nil => exact hK
  | cons e t ih =>
      have heq : runEx cf s (e :: t) = runEx cf (step cf s e) t := rfl
      rw [heq]
      exact ih (step cf s e) (K_step cf s e i hK)

/-- After the `invoke` event of `i`, `i`'s context has a `locks` entry. -/
theorem invoke_locks_isSome (cf : Bool → Bool) (s : LState) (i : Bool)
    (hK : (s.invs i).invoked = true → (s.locks (cf i)).isSome = true) :
    ((step cf s (LEv.invoke i)).locks (cf i)).isSome = true := by
  by_cases hj : (s.invs i).invoked
  · simpa [step, hj] using hK hj
  · simp [step, hj]

/-- When the invocation's outer `db` variable is null, `stop` reduces to:
set `stopRequested` and call the releaser stored in the context's map. -/
theorem stop_step_no_dbVar (cf : Bool → Bool) (s : LState) (j : Bool)
    (hdb : (s.invs j).dbVar = none) :
    step cf s (LEv.stop j) =
      resolveReleaser
        { s with invs := Function.update s.invs j { s.invs j with stopRequested := true } }
        (s.locks (cf j)) := by
  show stopHeldSession
      (resolveReleaser
        { s with invs := Function.update s.invs j { s.invs j with stopRequested := true } }
        (s.locks (cf j)))
      (((resolveReleaser
        { s with invs := Function.update s.invs j { s.invs j with stopRequested := true } }
        (s.locks (cf j))).invs j).dbVar)
    = resolveReleaser
        { s with invs := Function.update s.invs j { s.invs j with stopRequested := true } }
        (s.locks (cf j))
  have h2 : ((resolveReleaser
      { s with invs := Function.update s.invs j { s.invs j with stopRequested := true } }
      (s.locks (cf j))).invs j).dbVar = none := by
    rw [resolveReleaser_invs]
    simpa using hdb
  rw [h2]
  rfl

/-- No event changes a `sessionStopped` flag while every outer `db` variable
is null: the only write path is `stop`'s `if (db) { db.stop(); }`. -/
theorem sessionStopped_step (cf : Bool → Bool) (s : LState) (e : LEv) (i : Bool)
    (hdb : ∀ j, (s.invs j).dbVar = none)
    (h : (s.invs i).sessionStopped = false) :
    ((step cf s e).invs i).sessionStopped = false := by
  cases e with
  | invoke j =>
      by_cases hj : (s.invs j).invoked
      · simpa [step, hj] using h
      · by_cases hij : i = j
        · subst hij; simpa [step, hj] using h
        · simpa [step, hj, Function.update_apply, hij] using h
  | grant j =>
      simp only [step]
      split_ifs
      all_goals
        by_cases hij : i = j
        · subst hij; simpa using h
        · simpa [Function.update_apply, hij] using h
  | deliver j =>
      simp only [step]
      split_ifs
      all_goals
        by_cases hij : i = j
        · subst hij; simpa using h
        · simpa [Function.update_apply, hij] using h
  | stop j =>
      rw [stop_step_no_dbVar cf s j (hdb j), resolveReleaser_invs]
      by_cases hij : i = j
      · subst hij; simpa using h
      · simpa [Function.update_apply, hij] using h
  | release =>
      simp only [step]
      cases hh : s.holder with
      | none => exact h
      | some k => by_cases hr : s.holdRes k = true <;> simpa [hr] using h

/-- Once `stopRequested` is set while the session has not started, no event
can start it. -/
theorem M_step (cf : Bool → Bool) (s : LState) (e : LEv) (i : Bool)
    (h1 : (s.invs i).stopRequested = true) (h2 : (s.invs i).started = false) :
    ((step cf s e).invs i).stopRequested = true ∧
    ((step cf s e).invs i).started = false := by
  cases e with
  | invoke j =>
      by_cases hj : (s.invs j).invoked
      · simp [step, hj, h1, h2]
      · by_cases hij : i = j
        · subst hij; simp [step, hj, h1, h2]
        · simp [step, hj, Function.update_apply, hij, h1, h2]
  | grant j =>
      simp only [step]
      split_ifs with hA hB
      · by_cases hij : i = j
        · subst hij; simp [h1, h2]
        · simp [Function.update_apply, hij, h1, h2]
      · by_cases hij : i = j
        · subst hij; exact absurd h1 (by simpa using hB)
        · simp [Function.update_apply, hij, h1, h2]
      · exact ⟨h1, h2⟩
  | deliver j =>
      simp only [step]
      split_ifs with hA hB
      · by_cases hij : i = j
        · subst hij; simp [h1, h2]
        · simp [Function.update_apply, hij, h1, h2]
      · by_cases hij : i = j
        · subst hij; exact absurd h1 (by simpa using hB)
        · simp [Function.update_apply, hij, h1, h2]
      · exact ⟨h1, h2⟩
  | stop j =>
      constructor
      · show ((stopHeldSession _ _).invs i).stopRequested = true
        rw [stopHeldSession_stopRequested, resolveReleaser_invs]
        by_cases hij : i = j
        · subst hij; simp
        · simp [Function.update_apply, hij, h1]
      · show ((stopHeldSession _ _).invs i).started = false
        rw [stopHeldSession_started, resolveReleaser_invs]
        by_cases hij : i = j
        · subst hij; simpa using h2
        · simpa [Function.update_apply, hij] using h2
  | release =>
      simp only [step]
      cases hh : s.holder with
      | none => exact ⟨h1, h2⟩
      | some k => by_cases hr : s.holdRes k = true <;> simp [hr, h1, h2]

/-- Trace-level version of the previous lemma. -/
theorem M_run (cf : Bool → Bool) (t : List LEv) (s : LState) (i : Bool)
    (h1 : (s.invs i).stopRequested = true) (h2 : (s.invs i).started = false) :
    ((runEx cf s t).invs i).stopRequested = true ∧
    ((runEx cf s t).invs i).started = false := by
  induction t generalizing s with
  | nil => exact ⟨h1, h2⟩
  | cons e t ih =>
      have heq : runEx cf s (e :: t) = runEx cf (step cf s e) t := rfl
      rw [heq]
      have hstep := M_step cf s e i h1 h2
      exact ih (step cf s e) hstep.1 hstep.2

/-- The controller's `stop()` sets `stopRequested` and does not change
whether the session has started. -/
theorem stop_step_self (cf : Bool → Bool) (s : LState) (i : Bool) :
    ((step cf s (LEv.stop i)).invs i).stopRequested = true ∧
    ((step cf s (LEv.stop i)).invs i).started = (s.invs i).started := by
  constructor
  · show ((stopHeldSession _ _).invs i).stopRequested = true
    rw [stopHeldSession_stopRequested, resolveReleaser_invs]
    simp
  · show ((stopHeldSession _ _).invs i).started = _
    rw [stopHeldSession_started, resolveReleaser_invs]
    simp

/-- C2 counterexample: immediately after the `SyncedDB` constructor runs —
before `start()` — the transport's `onChangesReceived` slot is already wired
to the inbound stream while `prepare` has not run.  This refutes the claim
that the handler registration happens inside `start()` and that the transport
cannot deliver a batch to `receiveChanges` before `prepare` has run: a batch
delivered between construction and `start()` reaches an unprimed stream. -/
theorem C2_wiring_precedes_start_cex :
    (SyncedDB.construct Transport.initial).onChangesReceivedSet = true ∧
    (SyncedDB.construct Transport.initial).preparedWith = none := by
  constructor <;> rfl

/-- C2 (amended): the transport-callback registration for changes received,
start streaming and reset stream happens in the `SyncedDB` constructor, not in
`start()`; the constructor does not prime the inbound stream, and priming via
`prepare(frontier)` happens inside `start()`.  Hence the callback slots are
wired before `start()` runs. -/
theorem C2_amended_constructor_wires_transport (db : DBHandle) (s : SessionState) :
    (SyncedDB.construct s).onChangesReceivedSet = true ∧
    (SyncedDB.construct s).onStartStreamingSet = true ∧
    (SyncedDB.construct s).onResetStreamSet = true ∧
    (SyncedDB.construct s).preparedWith = s.preparedWith ∧
    (SyncedDB.start db (SyncedDB.construct s)).1.preparedWith = some db.lastSeens := by
  refine ⟨rfl, rfl, rfl, rfl, rfl⟩

/-- C5: `start()` retrieves the frontier and schema identity from the
database handle, primes the inbound stream with that frontier, and emits
exactly one presence announcement whose fields are exactly
`{tag := AnnouncePresence, lastSeens := the retrieved frontier, schemaName,
schemaVersion, sender := the handle's site id}`, with the `prepare` call
strictly before the `announcePresence` call. -/
theorem C5_start_prepares_then_announces_once (db : DBHandle) (s : SessionState) :
    (SyncedDB.start db s).2.filter SOp.isAnnounce =
      [SOp.announcePresence
        { tag := Tag.AnnouncePresence
          lastSeens := db.lastSeens
          schemaName := db.schemaName
          schemaVersion := db.schemaVersion
          sender := db.siteid }] ∧
    (SyncedDB.start db s).2.filter SOp.isPrepare = [SOp.prepare db.lastSeens] ∧
    (SyncedDB.start db s).2.findIdx SOp.isPrepare <
      (SyncedDB.start db s).2.findIdx SOp.isAnnounce ∧
    SOp.getLastSeens ∈ (SyncedDB.start db s).2 ∧
    SOp.getSchemaNameAndVersion ∈ (SyncedDB.start db s).2 ∧
    (SyncedDB.start db s).1.preparedWith = some db.lastSeens := by
  refine ⟨rfl, rfl, ?_, ?_, ?_, rfl⟩
  · simp [SyncedDB.start, List.findIdx, List.findIdx.go, SOp.isPrepare, SOp.isAnnounce]
  · simp [SyncedDB.start]
  · simp [SyncedDB.start]

/-- C6: `stop()` halts the outbound stream, closes the transport and returns
`true`; it is idempotent: a second `stop()` on the already-stopped session
leaves the session state exactly as it was and again returns `true`. -/
theorem C6_stop_idempotent_success (s : SessionState) :
    (SyncedDB.stop s).2 = true ∧
    (SyncedDB.stop s).1.outboundStopped = true ∧
    (SyncedDB.stop s).1.transportClosed = true ∧
    SyncedDB.stop (SyncedDB.stop s).1 = ((SyncedDB.stop s).1, true) := by
  refine ⟨rfl, rfl, rfl, rfl⟩

/-- C8: a batch whose starting version is strictly greater than the recorded
frontier for its peer plus one is not applied at all: `receiveChanges` leaves
the state (frontier and applied-change log) unchanged and emits exactly a
resend request to the peer from the recorded frontier. -/
theorem C8_gap_batch_not_applied_requests_resend (s : IState) (b : Batch)
    (h : s.frontier b.peer + 1 < b.firstVersion) :
    receiveChanges s b = (s, [Req.resendFrom b.peer (s.frontier b.peer)]) := by
  unfold receiveChanges
  simp [h]

/-- Witness for C8 at a concrete input: frontier 0 for peer 0, incoming batch
starting at version 5. -/
theorem C8_witness :
    (InboundStream.prepare (fun _ => 0)).frontier 0 + 1 < 5 ∧
    receiveChanges (InboundStream.prepare (fun _ => 0)) ⟨0, 5, 2⟩ =
      (InboundStream.prepare (fun _ => 0), [Req.resendFrom 0 0]) :=
  ⟨by decide,
   C8_gap_batch_not_applied_requests_resend (InboundStream.prepare (fun _ => 0))
     ⟨0, 5, 2⟩ (by decide)⟩

/-- C1 (evaluation of the code at the failing input): in the cross-context
scenario where tab `false` and tab `true` both call
`createSyncedDB_Exclusive` for the same name, tab `false` is granted the lock
and its session starts, its controller's `stop()` runs, the lock is released
and tab `true` is granted and starts — after which BOTH sessions are started
and neither has been stopped (the controller's `stop()` never reached
`SyncedDB.stop()` because the outer `db` variable was never assigned).  Two
sync sessions run at the same instant, contrary to the claim. -/
theorem C1_both_sessions_running_after_first_stop :
    ((runEx twoCtx LState.initial traceC1).invs false).stopRequested = true ∧
    ((runEx twoCtx LState.initial traceC1).invs false).started = true ∧
    ((runEx twoCtx LState.initial traceC1).invs false).sessionStopped = false ∧
    ((runEx twoCtx LState.initial traceC1).invs true).started = true ∧
    ((runEx twoCtx LState.initial traceC1).invs true).sessionStopped = false := by
  decide

/-- Invoking never changes a hold promise. -/
theorem holdRes_invoke (cf : Bool → Bool) (s : LState) (j : Bool) :
    (step cf s (LEv.invoke j)).holdRes = s.holdRes := by
  by_cases hj : (s.invs j).invoked <;> simp [step, hj]

/-- Granting never changes a hold promise. -/
theorem holdRes_grant (cf : Bool → Bool) (s : LState) (j : Bool) :
    (step cf s (LEv.grant j)).holdRes = s.holdRes := by
  simp only [step]
  split_ifs <;> rfl

/-- Delivery never changes a hold promise. -/
theorem holdRes_deliver (cf : Bool → Bool) (s : LState) (j : Bool) :
    (step cf s (LEv.deliver j)).holdRes = s.holdRes := by
  simp only [step]
  split_ifs <;> rfl

/-- Releasing the mutex never changes a hold promise. -/
theorem holdRes_release (cf : Bool → Bool) (s : LState) :
    (step cf s LEv.release).holdRes = s.holdRes := by
  simp only [step]
  cases hh : s.holder with
  | none => rfl
  | some k => by_cases hr : s.holdRes k = true <;> simp [hr]

/-- The controller's `stop()` resolves exactly the hold promise of the
invocation whose releaser the context's map stores. -/
theorem holdRes_stop (cf : Bool → Bool) (s : LState) (j : Bool) :
    (step cf s (LEv.stop j)).holdRes =
      (resolveReleaser
        { s with invs := Function.update s.invs j { s.invs j with stopRequested := true } }
        (s.locks (cf j))).holdRes := by
  show (stopHeldSession _ _).holdRes = _
  rw [stopHeldSession_holdRes]

/-- Preservation of the same-context two-call invariant: the shared map entry
stores the second call's releaser, the first call's hold is unresolved, and
both invocations have happened. -/
theorem L_step (s : LState) (e : LEv)
    (hL1 : s.locks false = some true) (hL2 : s.holdRes false = false)
    (hL3 : (s.invs false).invoked = true) (hL4 : (s.invs true).invoked = true) :
    (step oneCtx s e).locks false = some true ∧
    (step oneCtx s e).holdRes false = false ∧
    ((step oneCtx s e).invs false).invoked = true ∧
    ((step oneCtx s e).invs true).invoked = true := by
  cases e with
  | invoke j =>
      have hj : (s.invs j).invoked = true := by
        cases j
        · exact hL3
        · exact hL4
      simp [step, hj, hL1, hL2, hL3, hL4]
  | grant j =>
      refine ⟨?_, ?_, ?_, ?_⟩
      · rw [locks_grant]; exact hL1
      · rw [holdRes_grant]; exact hL2
      · rw [invoked_grant]; exact hL3
      · rw [invoked_grant]; exact hL4
  | deliver j =>
      refine ⟨?_, ?_, ?_, ?_⟩
      · rw [locks_deliver]; exact hL1
      · rw [holdRes_deliver]; exact hL2
      · rw [invoked_deliver]; exact hL3
      · rw [invoked_deliver]; exact hL4
  | stop j =>
      refine ⟨?_, ?_, ?_, ?_⟩
      · rw [locks_stop]; exact hL1
      · rw [holdRes_stop]
        have hc : oneCtx j = false := rfl
        rw [hc, hL1, resolveReleaser_holdRes_other _ _ _ (by decide)]
        exact hL2
      · rw [invoked_stop]; exact hL3
      · rw [invoked_stop]; exact hL4
  | release =>
      refine ⟨?_, ?_, ?_, ?_⟩
      · rw [locks_release]; exact hL1
      · rw [holdRes_release]; exact hL2
      · rw [invoked_release]; exact hL3
      · rw [invoked_release]; exact hL4

/-- Trace-level version of the same-context two-call invariant. -/
theorem L_run (t : List LEv) (s : LState)
    (hL1 : s.locks false = some true) (hL2 : s.holdRes false = false)
    (hL3 : (s.invs false).invoked = true) (hL4 : (s.invs true).invoked = true) :
    (runEx oneCtx s t).locks false = some true ∧
    (runEx oneCtx s t).holdRes false = false ∧
    ((runEx oneCtx s t).invs false).invoked = true ∧
    ((runEx oneCtx s t).invs true).invoked = true := by
  induction t generalizing s with
  | nil => exact ⟨hL1, hL2, hL3, hL4⟩
  | cons e t ih =>
      have heq : runEx oneCtx s (e :: t) = runEx oneCtx (step oneCtx s e) t := rfl
      rw [heq]
      obtain ⟨a, b, c, d⟩ := L_step s e hL1 hL2 hL3 hL4
      exact ih (step oneCtx s e) a b c d

/-- When the shared map entry stores invocation `true`'s releaser, any
controller's `stop()` resolves invocation `true`'s hold promise. -/
theorem stop_resolves_second (s : LState) (i : Bool)
    (hL1 : s.locks false = some true) :
    (step oneCtx s (LEv.stop i)).holdRes true = true := by
  rw [holdRes_stop]
  have hc : oneCtx i = false := rfl
  rw [hc, hL1]
  exact resolveReleaser_holdRes_self _ true

/-- C3: in any execution of `createSyncedDB_Exclusive`, if the controller's
`stop()` runs at a point where the invocation's session has not started
(before the lock callback ran, or before the session object was delivered to
the `startSync` callback), then the session never starts: `SyncedDB.start()`
is never invoked for that invocation, no matter what happens afterwards.
The guard is the `stopRequested` flag, checked both by the lock callback and
by the delivery callback. -/
theorem C3_stop_before_delivery_never_starts (cf : Bool → Bool)
    (t1 t2 : List LEv) (i : Bool)
    (h : ((runEx cf LState.initial t1).invs i).started = false) :
    ((runEx cf LState.initial (t1 ++ LEv.stop i :: t2)).invs i).started = false := by
  have hsplit : runEx cf LState.initial (t1 ++ LEv.stop i :: t2)
      = runEx cf (step cf (runEx cf LState.initial t1) (LEv.stop i)) t2 := by
    simp [runEx, List.foldl_append]
  rw [hsplit]
  obtain ⟨ha, hb⟩ := stop_step_self cf (runEx cf LState.initial t1) i
  exact (M_run cf t2 _ i ha (hb.trans h)).2

/-- Witness for C3: tab `false` invokes, its controller stops before the lock
is granted, and even after a subsequent grant and delivery its session has
not started. -/
theorem C3_witness :
    ((runEx twoCtx LState.initial [LEv.invoke false]).invs false).started = false ∧
    ((runEx twoCtx LState.initial
        ([LEv.invoke false] ++ LEv.stop false ::
          [LEv.grant false, LEv.deliver false])).invs false).started = false :=
  ⟨by decide,
   C3_stop_before_delivery_never_starts twoCtx [LEv.invoke false]
     [LEv.grant false, LEv.deliver false] false (by decide)⟩

/-- C4: in every execution of the exclusivity model the outer `db` variable
of each invocation remains null forever — the `startSync` callback's
`db = db` statement assigns its own parameter to itself — and consequently
`SyncedDB.stop()` is never invoked on any started session: the controller's
`stop()` only sets `stopRequested` and resolves the mapped releaser, leaving
a started session's outbound stream running and its transport open. -/
theorem C4_controller_stop_never_stops_session (cf : Bool → Bool)
    (t : List LEv) (i : Bool) :
    ((runEx cf LState.initial t).invs i).dbVar = none ∧
    ((runEx cf LState.initial t).invs i).sessionStopped = false := by
  have main : ∀ (u : List LEv) (s : LState),
      (∀ j, (s.invs j).dbVar = none) → (∀ j, (s.invs j).sessionStopped = false) →
      (∀ j, ((runEx cf s u).invs j).dbVar = none) ∧
      (∀ j, ((runEx cf s u).invs j).sessionStopped = false) := by
    intro u
    induction u with
    | nil => intro s hd hs; exact ⟨hd, hs⟩
    | cons e u ih =>
        intro s hd hs
        have heq : runEx cf s (e :: u) = runEx cf (step cf s e) u := rfl
        rw [heq]
        exact ih (step cf s e)
          (fun j => by rw [dbVar_step]; exact hd j)
          (fun j => sessionStopped_step cf s e j hd (hs j))
  exact ⟨(main t LState.initial (fun _ => rfl) (fun _ => rfl)).1 i,
         (main t LState.initial (fun _ => rfl) (fun _ => rfl)).2 i⟩

/-- C9 (amended): the per-name `locks` entry is created by the first
exclusive-start request for the name in a context (the map is empty
initially) and is never removed: no code path deletes it, so it persists
after every subsequent trace — including after no holder and no waiters
remain. -/
theorem C9_amended_entry_created_never_removed (cf : Bool → Bool) (c : Bool)
    (t1 t2 : List LEv) (i : Bool) :
    LState.initial.locks c = none ∧
    ((runEx cf LState.initial (t1 ++ LEv.invoke i :: t2)).locks (cf i)).isSome = true := by
  refine ⟨rfl, ?_⟩
  have hsplit : runEx cf LState.initial (t1 ++ LEv.invoke i :: t2)
      = runEx cf (step cf (runEx cf LState.initial t1) (LEv.invoke i)) t2 := by
    simp [runEx, List.foldl_append]
  rw [hsplit]
  refine locks_isSome_run cf t2 _ _ ?_
  refine invoke_locks_isSome cf _ i ?_
  refine K_run cf t1 LState.initial i ?_
  intro hfalse
  simp [LState.initial, Inv.initial] at hfalse

/-- C10: when two calls to `createSyncedDB_Exclusive` for the same name run
in the same execution context (first invocation `false`, then invocation
`true`), the second call overwrites the single shared `locks` entry, which
from then on stores the second call's releaser; `stop()` on either controller
resolves the second call's hold promise, and the first call's hold promise is
never resolved through the map. -/
theorem C10_second_call_overwrites_releaser (t : List LEv) (i : Bool) :
    (runEx oneCtx LState.initial ([LEv.invoke false, LEv.invoke true] ++ t)).locks false
      = some true ∧
    (runEx oneCtx LState.initial ([LEv.invoke false, LEv.invoke true] ++ t)).holdRes false
      = false ∧
    (runEx oneCtx LState.initial
        (([LEv.invoke false, LEv.invoke true] ++ t) ++ [LEv.stop i])).holdRes true
      = true := by
  have hbase1 : (runEx oneCtx LState.initial [LEv.invoke false, LEv.invoke true]).locks false
      = some true := by decide
  have hbase2 : (runEx oneCtx LState.initial [LEv.invoke false, LEv.invoke true]).holdRes false
      = false := by decide
  have hbase3 : ((runEx oneCtx LState.initial [LEv.invoke false, LEv.invoke true]).invs false).invoked
      = true := by decide
  have hbase4 : ((runEx oneCtx LState.initial [LEv.invoke false, LEv.invoke true]).invs true).invoked
      = true := by decide
  have hsplit : runEx oneCtx LState.initial ([LEv.invoke false, LEv.invoke true] ++ t)
      = runEx oneCtx (runEx oneCtx LState.initial [LEv.invoke false, LEv.invoke true]) t := by
    simp [runEx, List.foldl_append]
  obtain ⟨a, b, c, d⟩ := L_run t _ hbase1 hbase2 hbase3 hbase4
  refine ⟨by rw [hsplit]; exact a, by rw [hsplit]; exact b, ?_⟩
  have hsplit2 : runEx oneCtx LState.initial
        (([LEv.invoke false, LEv.invoke true] ++ t) ++ [LEv.stop i])
      = step oneCtx (runEx oneCtx LState.initial ([LEv.invoke false, LEv.invoke true] ++ t))
          (LEv.stop i) := by
    simp [runEx, List.foldl_append]
  rw [hsplit2, hsplit]
  exact stop_resolves_second _ i a

/-- C7: for every peer `p` and every sequence of successful `receiveChanges`
calls from a prepared inbound stream, the recorded frontier for `p` equals
the final version of the last batch (suffix) applied from `p` (and equals the
prepared value when no batch from `p` has been applied), and the frontier for
`p` is monotonically non-decreasing over the sequence: its value after any
prefix is at most its value after the full sequence. -/
theorem C7_frontier_tracks_last_applied_and_monotone (ls : Nat → Nat)
    (bs ext : List Batch) (p : Nat) :
    (runIn (InboundStream.prepare ls) (bs ++ ext)).frontier p
      = ((runIn (InboundStream.prepare ls) (bs ++ ext)).lastApplied p).getD (ls p) ∧
    (runIn (InboundStream.prepare ls) bs).frontier p
      ≤ (runIn (InboundStream.prepare ls) (bs ++ ext)).frontier p := by
  constructor
  · exact track_run ls (bs ++ ext) _ (fun _ => rfl) p
  · have hsplit : runIn (InboundStream.prepare ls) (bs ++ ext)
        = runIn (runIn (InboundStream.prepare ls) bs) ext := by
      simp [runIn, List.foldl_append]
    rw [hsplit]
    exact frontier_mono_run ext _ p

/-- C9 counterexample: after a single invocation acquires the lock, starts,
stops and the lock is released, no invocation holds the lock and none is
waiting, yet the module-level `locks` map still contains the entry for the
database name — the code never deletes it, refuting destruction once no
holder and no waiters remain. -/
theorem C9_entry_persists_after_release_cex :
    (runEx twoCtx LState.initial traceC9).holder = none ∧
    waiting ((runEx twoCtx LState.initial traceC9).invs false) = false ∧
    waiting ((runEx twoCtx LState.initial traceC9).invs true) = false ∧
    (runEx twoCtx LState.initial traceC9).locks false = some false := by
  decide

end CRSqlite
